import Mathlib

/-!
Verification of the shuttlecock_kakao news-search webhook pipeline.

The repository contains two variants of the same Express service:
`src/app.js` (namespace `AppJs` below) and `src/unnamed/part_000` /
`src/unnamed/part_001` (namespace `P001` below; the two unnamed files are
byte-identical up to text encoding of the Korean literals).

The embedding models every network call (LLM completion, news search,
embedding service, supabase insert and rpc) as an explicit oracle value
passed to the function under study: an `Except JsError _` for calls that can
reject, and a `{data, error}` record for supabase calls, which report
failures in-band.  All text processing (`formatKeywords`, `cleanText`,
splitting on the JS `\s` class) is translated character-by-character from
the JS source.
-/

set_option linter.unusedVariables false

/-- JavaScript runtime errors, as far as the pipeline can observe them:
transport/provider rejections, `TypeError` from accessing a field of
`undefined`/`null`, `ReferenceError` from an undefined identifier, and
supabase error objects (thrown by `part_001`-style code). -/
inductive JsError where
  | network (detail : String)
  | typeError (detail : String)
  | referenceError (name : String)
  | supabase (code : String)
deriving DecidableEq

/-- True exactly when the `Except` value models a thrown/rejected JS error. -/
def isThrown {α : Type} : Except JsError α → Bool
  | .error _ => true
  | .ok _ => false

/-! ### The JavaScript whitespace class

`String.prototype.trim` and the regex class `\s` strip/match the same set of
code points (ECMA-262 WhiteSpace ∪ LineTerminator); `jsWs` is that set. -/

/-- Membership in the ECMAScript WhiteSpace/LineTerminator class, the set
matched by `\s` and stripped by `trim()`. -/
def jsWs (c : Char) : Bool :=
  c = ' ' || c = '\t' || c = '\n' || c = '\x0b' || c = '\x0c' || c = '\r' ||
  c = '\u00A0' || c = '\u1680' || ('\u2000' ≤ c && c ≤ '\u200A') ||
  c = '\u2028' || c = '\u2029' || c = '\u202F' || c = '\u205F' ||
  c = '\u3000' || c = '\uFEFF'

/-- JS `String.prototype.trim` on the character list: drop the leading run of
whitespace, then the trailing run. -/
def jsTrimL (l : List Char) : List Char :=
  (((l.dropWhile jsWs).reverse.dropWhile jsWs)).reverse

/-- JS `String.prototype.trim`. -/
def jsTrim (s : String) : String := ⟨jsTrimL s.data⟩

/-- One step (right to left) of `split(/\s+/)`.  The state is the split of
the suffix already processed: the flag records whether that suffix begins
with whitespace (so a further whitespace character extends the same
separator run instead of opening a new one), and the list holds the pieces.
A non-whitespace character is prepended to the leftmost piece. -/
def splitStep (c : Char) : Bool × List (List Char) → Bool × List (List Char)
  | (headWs, pieces) =>
    if jsWs c then
      if headWs then (true, pieces) else (true, [] :: pieces)
    else
      match pieces with
      | p :: ps => (false, (c :: p) :: ps)
      | [] => (false, [[c]])

/-- Right fold computing JS `split(/\s+/)` together with the begins-with-
whitespace flag.  On `""` JS returns `[""]`, the initial state. -/
def jsSplitAux (l : List Char) : Bool × List (List Char) :=
  l.foldr splitStep (false, [[]])

/-- JS `String.prototype.split(/\s+/)` on the character list: pieces between
maximal whitespace runs, with an empty boundary piece when the string starts
or ends with whitespace, and `[""]` for the empty string. -/
def jsSplitWsL (l : List Char) : List (List Char) := (jsSplitAux l).2

/-- JS `Array.prototype.join(" ")` on character-list words. -/
def joinSp : List (List Char) → List Char
  | [] => []
  | [w] => w
  | w :: ws => w ++ ' ' :: joinSp ws

/-- The whitespace-separated tokens of a string: the nonempty pieces of its
`split(/\s+/)`.  Used to state the token-count bound of the spec. -/
def tokensL (l : List Char) : List (List Char) :=
  (jsSplitWsL l).filter (fun p => p ≠ [])

namespace AppJs

/-- Embeds `formatKeywords` of `src/app.js` lines 24-27:
`keywords.split(/\s+/).filter(word => word.trim() !== "").slice(0, 2).join(" ")`.
Note: no comma stripping in this variant. -/
def formatKeywords (keywords : String) : String :=
  ⟨joinSp (((jsSplitWsL keywords.data).filter (fun w => jsTrimL w ≠ [])).take 2)⟩

end AppJs

namespace P001

/-- Embeds `formatKeywords` of `src/unnamed/part_001` lines 30-33 (and the
identical `part_000` lines 30-33):
`keywords.replace(/,/g, "").trim().split(/\s+/).slice(0, 2).join(" ")`. -/
def formatKeywords (keywords : String) : String :=
  ⟨joinSp ((jsSplitWsL (jsTrimL (keywords.data.filter (fun c => c ≠ ',')))).take 2)⟩

end P001

/-! ### cleanText

`cleanText` (identical in both variants) chains three global regex
replacements: `/<!HS>|<!HE>/g` with `""`, `/<h4[^>]*>.*?<\/h4>/g` with `""`,
and `/\n+/g` with `"\n"`.  Each is embedded as a left-to-right scan with the
exact semantics of the JS regex engine (leftmost match, continue after the
match, advance one character on failure). -/

/-- First replacement of `cleanText`: delete every occurrence of the literal
alternation `<!HS>|<!HE>`, scanning left to right. -/
def stripMarkersL : List Char → List Char
  | '<' :: '!' :: 'H' :: 'S' :: '>' :: rest => stripMarkersL rest
  | '<' :: '!' :: 'H' :: 'E' :: '>' :: rest => stripMarkersL rest
  | c :: rest => c :: stripMarkersL rest
  | [] => []

/-- The lazy tail `.*?<\/h4>` of the h4 regex: consume the minimal run of
non-newline characters up to a `</h4>`, returning the remainder after it;
`.` does not match a newline, so a newline before any `</h4>` kills the
match attempt. -/
def h4FindClose : List Char → Option (List Char)
  | '<' :: '/' :: 'h' :: '4' :: '>' :: rest => some rest
  | '\n' :: _ => none
  | _ :: rest => h4FindClose rest
  | [] => none

/-- The `[^>]*>` part of the h4 regex: since `[^>]` cannot match `>`, the
match consumes exactly up to the first `>`; fails if there is none. -/
def h4AfterOpen : List Char → Option (List Char)
  | '>' :: rest => h4FindClose rest
  | _ :: rest => h4AfterOpen rest
  | [] => none

/-- Match of `<h4[^>]*>.*?<\/h4>` anchored at the head of the list,
returning the remainder after the matched block. -/
def matchH4 : List Char → Option (List Char)
  | '<' :: 'h' :: '4' :: rest => h4AfterOpen rest
  | _ => none

/-- Scanning loop of the second replacement.  Each step consumes at least
one character, so fuel equal to the length of the list always suffices; the
`0` fallback is unreachable from `stripH4L`. -/
def stripH4Go : Nat → List Char → List Char
  | _, [] => []
  | 0, l => l
  | fuel + 1, c :: rest =>
    match matchH4 (c :: rest) with
    | some rem => stripH4Go fuel rem
    | none => c :: stripH4Go fuel rest

/-- Second replacement of `cleanText`: delete every match of
`/<h4[^>]*>.*?<\/h4>/g`. -/
def stripH4L (l : List Char) : List Char := stripH4Go l.length l

/-- Third replacement of `cleanText`: collapse every maximal run of
newlines to a single newline (`/\n+/g` with `"\n"`). -/
def collapseNl : List Char → List Char
  | [] => []
  | [c] => [c]
  | c :: d :: rest =>
    if c = '\n' ∧ d = '\n' then collapseNl (d :: rest)
    else c :: collapseNl (d :: rest)

/-- Embeds `cleanText` of `src/app.js` lines 80-84 and
`src/unnamed/part_001` lines 89-93 on character lists. -/
def cleanTextL (l : List Char) : List Char :=
  collapseNl (stripH4L (stripMarkersL l))

/-- Embeds `cleanText`: strip `<!HS>`/`<!HE>` highlight markers, strip
`<h4 ...>...</h4>` blocks, collapse newline runs. -/
def cleanText (text : String) : String := ⟨cleanTextL text.data⟩

/-- The first `cleanText` pass on strings (highlight-marker removal),
named so that having no residual marker can be said as being a fixed point
of this pass. -/
def stripMarkers (text : String) : String := ⟨stripMarkersL text.data⟩

/-- The second `cleanText` pass on strings (h4-block removal). -/
def stripH4 (text : String) : String := ⟨stripH4L text.data⟩


/-! ### Data model and pipeline stages -/

/-- Raw article record of the news search provider response
(`response.data.news_sbs` element). -/
structure RawArticle where
  TITLE : String
  REDUCE_CONTENTS : String
  DATE : String
  DOCID : String
deriving DecidableEq

/-- Article object built by `fetchNewsData` (identical in both variants). -/
structure Article where
  title : String
  article : String
  date : String
  link : String
deriving DecidableEq

/-- Article together with the embedding vector attached by
`createEmbeddings` via object spread (`{...doc, embedding}`).  The vector
type is abstract: no claim depends on its contents. -/
structure EmbeddedArticle (V : Type) extends Article where
  embedding : V
deriving DecidableEq

/-- Maps one raw provider record to an `Article`, as in the `.map` callback
of `fetchNewsData` (`src/app.js` lines 68-72, `part_001` lines 77-81). -/
def mkArticle (a : RawArticle) : Article :=
  { title := cleanText a.TITLE
    article := cleanText a.REDUCE_CONTENTS
    date := cleanText a.DATE
    link := "https://news.sbs.co.kr/news/endPage.do?news_id=" ++ a.DOCID }

/-- Embeds `fetchNewsData` (`src/app.js` lines 61-78, `part_001` lines
70-87; the variants differ only in the default `limit`, 40 versus 20).
The awaited `axios.get` is the oracle `resp`: `Except.error` models a
rejected transport call, and the payload field `news_sbs` may be absent
(`response.data.news_sbs || []`).  The catch block turns any rejection into
`[]`, so the function itself is total and never raises. -/
def fetchNewsData (query : String) (limit : Nat)
    (resp : Except JsError (Option (List RawArticle))) : List Article :=
  match resp with
  | .error _ => []
  | .ok newsSbs => ((newsSbs.getD []).map mkArticle).filter (fun a => a.title ≠ "")

/-- Embeds `createEmbeddings` (`src/app.js` lines 86-99, `part_001` lines
95-108).  The per-article call `openai.embeddings.create` is the oracle
`embed`, applied to `doc.article` as in the source.  `Promise.all` resolves
to the in-order list when every call succeeds and rejects as soon as any
call rejects; the embedding reports the leftmost failing call.  No partial
list can be produced. -/
def createEmbeddings {V : Type} (embed : String → Except JsError V) :
    List Article → Except JsError (List (EmbeddedArticle V))
  | [] => .ok []
  | doc :: docs =>
    match embed doc.article, createEmbeddings embed docs with
    | .error e, _ => .error e
    | .ok _, .error e => .error e
    | .ok v, .ok rest => .ok ({ toArticle := doc, embedding := v } :: rest)

/-- Outcome of the awaited supabase `insert`; supabase reports write
failures in-band as `{data, error}` rather than by rejecting. -/
structure InsertResult where
  data : Option Unit
  error : Option JsError
deriving DecidableEq

/-- Similarity result returned by the vector store rpc; the handler only
reads its `link` field. -/
structure SimilarDocument where
  link : String
deriving DecidableEq

/-- Outcome of the awaited supabase `rpc("match_documents", ...)`; on
provider error `data` is absent. -/
structure RpcResult where
  data : Option (List SimilarDocument)
  error : Option JsError
deriving DecidableEq

/-- Embeds `findSimilarDocuments` (identical in both variants,
`src/app.js` lines 110-124, `part_001` lines 127-141).  The query-embedding
call is awaited with no try/catch, so its rejection propagates; an rpc
error is only logged and `data` (absent on error) is returned as-is. -/
def findSimilarDocuments {V : Type} (queryEmbedding : Except JsError V)
    (rpc : RpcResult) : Except JsError (Option (List SimilarDocument)) :=
  match queryEmbedding with
  | .error e => .error e
  | .ok _ => .ok rpc.data

namespace AppJs

/-- Embeds `storeEmbeddings` of `src/app.js` lines 101-108: the insert
error is only logged (`if (error) console.error(...)`) and `data` is
returned; nothing is thrown, so a write failure is swallowed. -/
def storeEmbeddings {V : Type} (embeddings : List (EmbeddedArticle V))
    (res : InsertResult) : Except JsError (Option Unit) :=
  .ok res.data

/-- Embeds `extractKeywords` of `src/app.js` lines 29-59: on success the
first content item text is formatted; the catch block maps any rejection
to `""`. -/
def extractKeywords (llm : Except JsError String) : String :=
  match llm with
  | .ok text => formatKeywords text
  | .error _ => ""

/-- Embeds the responder expression of `src/app.js` lines 137-148:
`"관련 뉴스 링크:\n" + similarDocuments.map(doc => doc.link).join("\n")`.
There is no empty-result check in this variant; when `similarDocuments` is
`null` (rpc error), `.map` throws a `TypeError`. -/
def responseText (similarDocuments : Option (List SimilarDocument)) :
    Except JsError String :=
  match similarDocuments with
  | none => .error (.typeError "cannot read map of null")
  | some docs =>
    .ok ("관련 뉴스 링크:\n" ++ String.intercalate "\n" (docs.map (fun d => d.link)))

end AppJs

namespace P001

/-- Embeds the decode step of `part_001` line 60 (`part_000` line 60):
`iconv.decode(Buffer.from(text, "utf8"), "utf8")`.  The identifier `iconv`
is never declared, required, or assigned anywhere in the module, so
evaluating this expression throws a `ReferenceError` before any decoding
happens. -/
def decodeKeywordText (text : String) : Except JsError String :=
  .error (.referenceError "iconv")

/-- Embeds `extractKeywords` of `part_001` lines 35-68: the decode step
runs inside the same try block as the transport call, so its
`ReferenceError` is caught by the same catch, which returns `""`. -/
def extractKeywords (llm : Except JsError String) : String :=
  match llm with
  | .error _ => ""
  | .ok text =>
    match decodeKeywordText text with
    | .error _ => ""
    | .ok decoded => formatKeywords decoded

/-- Embeds `storeEmbeddings` of `part_001` lines 110-125: an in-band insert
error is thrown; the surrounding catch logs and rethrows it, so a write
failure always propagates to the caller. -/
def storeEmbeddings {V : Type} (embeddings : List (EmbeddedArticle V))
    (res : InsertResult) : Except JsError (Option Unit) :=
  match res.error with
  | some e => .error e
  | none => .ok res.data

/-- Embeds the responder expression of `part_001` lines 170-172:
`similarDocuments && similarDocuments.length > 0 ? header + links : fallback`. -/
def responseText (similarDocuments : Option (List SimilarDocument)) : String :=
  match similarDocuments with
  | some docs =>
    if docs.length > 0 then
      "관련 뉴스 링크:\n" ++ String.intercalate "\n" (docs.map (fun d => d.link))
    else "관련 뉴스를 찾을 수 없습니다."
  | none => "관련 뉴스를 찾을 수 없습니다."

end P001

/-- Responder contract as worded in the spec (section 4.6): a fixed
"no results found" message when the result sequence is empty or absent,
otherwise a fixed header line followed by one link per line in result
order.  Stated separately from the code embedding so the two can be
compared. -/
def responderSpec (results : Option (List SimilarDocument)) : String :=
  match results with
  | none => "관련 뉴스를 찾을 수 없습니다."
  | some rs =>
    if rs.isEmpty then "관련 뉴스를 찾을 수 없습니다."
    else "관련 뉴스 링크:\n" ++ String.intercalate "\n" (rs.map (fun r => r.link))

/-! ### The request handler -/

/-- Chat-platform webhook payload field `userRequest`. -/
structure UserRequest where
  utterance : String
deriving DecidableEq

/-- Request body of `POST /api/searchNews`; `userRequest` may be absent
from a malformed payload. -/
structure RequestBody where
  userRequest : Option UserRequest
deriving DecidableEq

/-- The network outcomes one request can observe, gathered so a handler
run is a pure function of them. -/
structure Oracles (V : Type) where
  llm : Except JsError String
  news : Except JsError (Option (List RawArticle))
  embed : String → Except JsError V
  insert : InsertResult
  queryEmbed : Except JsError V
  rpc : RpcResult

/-- Observable outcome of one handler invocation: an HTTP response with
status and payload text, or a crash (an error thrown outside the try block
of an async Express 4 handler is never caught, so no response is sent). -/
inductive Outcome where
  | responds (status : Nat) (text : String)
  | crash (message : String)
deriving DecidableEq

/-- True exactly on the crash outcome. -/
def Outcome.isCrash : Outcome → Bool
  | .crash _ => true
  | _ => false

namespace AppJs

/-- Embeds the `/searchNews` handler of `src/app.js` lines 126-155.
`req.body.userRequest.utterance` is read before the try block: when
`userRequest` is absent the access throws a `TypeError` that nothing
catches, and neither response is produced.  Inside the try block a
rejection from `createEmbeddings`, the query embedding, or the `.map` on a
null result list reaches the catch, which replies 500 with
`{error: "Internal Server Error"}`; `storeEmbeddings` never rejects in
this variant. -/
def searchNewsHandler {V : Type} (o : Oracles V) (body : RequestBody) : Outcome :=
  match body.userRequest with
  | none => .crash "TypeError: cannot read utterance of undefined"
  | some _u =>
    let keywords := extractKeywords o.llm
    let newsData := fetchNewsData keywords 40 o.news
    match createEmbeddings o.embed newsData with
    | .error _ => .responds 500 "Internal Server Error"
    | .ok embeddings =>
      match storeEmbeddings embeddings o.insert with
      | .error _ => .responds 500 "Internal Server Error"
      | .ok _ =>
        match findSimilarDocuments o.queryEmbed o.rpc with
        | .error _ => .responds 500 "Internal Server Error"
        | .ok sim =>
          match responseText sim with
          | .error _ => .responds 500 "Internal Server Error"
          | .ok text => .responds 200 text

end AppJs

namespace P001

/-- Embeds the `/searchNews` handler of `part_001` lines 143-189.  As in
the other variant the utterance is read before the try block, so a missing
`userRequest` crashes the request.  Errors thrown inside the try block
(embedding batch, store write, query embedding) reach the catch, which
replies 500 with the apology envelope. -/
def searchNewsHandler {V : Type} (o : Oracles V) (body : RequestBody) : Outcome :=
  match body.userRequest with
  | none => .crash "TypeError: cannot read utterance of undefined"
  | some _u =>
    let keywords := extractKeywords o.llm
    let newsData := fetchNewsData keywords 20 o.news
    match createEmbeddings o.embed newsData with
    | .error _ => .responds 500 "죄송합니다. 뉴스를 검색하는 중 오류가 발생했습니다."
    | .ok embeddings =>
      match storeEmbeddings embeddings o.insert with
      | .error _ => .responds 500 "죄송합니다. 뉴스를 검색하는 중 오류가 발생했습니다."
      | .ok _ =>
        match findSimilarDocuments o.queryEmbed o.rpc with
        | .error _ => .responds 500 "죄송합니다. 뉴스를 검색하는 중 오류가 발생했습니다."
        | .ok sim => .responds 200 (responseText sim)

end P001

/-! ### Theorems -/

/-- C6: for every query string, when the news-search transport call fails,
`fetchNewsData` does not raise: it logs the error and resolves to the empty
sequence, so downstream stages proceed.  (The embedding is a total function
into `List Article`, so no exception can escape; the transport rejection is
mapped to `[]`.) -/
theorem fetchNewsData_transport_failure_yields_empty (query : String)
    (limit : Nat) (e : JsError) :
    fetchNewsData query limit (.error e) = [] := rfl

/-- C7: every article returned by `fetchNewsData` has a non-empty title,
and every raw provider record whose cleaned title is empty is excluded
from the output. -/
theorem fetchNewsData_drops_untitled (query : String) (limit : Nat)
    (resp : Except JsError (Option (List RawArticle))) :
    (∀ a ∈ fetchNewsData query limit resp, a.title ≠ "") ∧
    (∀ raws, resp = .ok (some raws) →
      ∀ ra ∈ raws, (mkArticle ra).title = "" →
        mkArticle ra ∉ fetchNewsData query limit resp) := by
  constructor
  · intro a ha
    match resp with
    | .error e => simp [fetchNewsData] at ha
    | .ok newsSbs =>
      simp only [fetchNewsData, List.mem_filter, decide_not] at ha
      simpa using ha.2
  · intro raws hresp ra _hra htitle hmem
    subst hresp
    simp only [fetchNewsData, List.mem_filter, decide_not] at hmem
    have : (mkArticle ra).title ≠ "" := by simpa using hmem.2
    exact this htitle

/-- C7 witness: on a concrete provider response holding one titled and one
untitled record, the titled article has a non-empty title and the untitled
record is excluded. -/
theorem fetchNewsData_drops_untitled_witness :
    (mkArticle { TITLE := "<!HS>t<!HE>", REDUCE_CONTENTS := "b", DATE := "d", DOCID := "1" }).title ≠ "" ∧
    mkArticle { TITLE := "", REDUCE_CONTENTS := "b", DATE := "d", DOCID := "2" } ∉
      fetchNewsData "q" 40 (.ok (some
        [{ TITLE := "<!HS>t<!HE>", REDUCE_CONTENTS := "b", DATE := "d", DOCID := "1" },
         { TITLE := "", REDUCE_CONTENTS := "b", DATE := "d", DOCID := "2" }])) := by
  constructor
  · exact (fetchNewsData_drops_untitled "q" 40 (.ok (some
        [{ TITLE := "<!HS>t<!HE>", REDUCE_CONTENTS := "b", DATE := "d", DOCID := "1" },
         { TITLE := "", REDUCE_CONTENTS := "b", DATE := "d", DOCID := "2" }]))).1
      (mkArticle { TITLE := "<!HS>t<!HE>", REDUCE_CONTENTS := "b", DATE := "d", DOCID := "1" })
      (by decide)
  · exact (fetchNewsData_drops_untitled "q" 40 (.ok (some
        [{ TITLE := "<!HS>t<!HE>", REDUCE_CONTENTS := "b", DATE := "d", DOCID := "1" },
         { TITLE := "", REDUCE_CONTENTS := "b", DATE := "d", DOCID := "2" }]))).2
      _ rfl _ (by decide) (by decide)

/-- C5: the embedding batch is all-or-nothing: if any single per-article
embedding call fails, the whole `createEmbeddings` call fails with the
error of a failing call, and no partial list is returned. -/
theorem createEmbeddings_all_or_nothing {V : Type}
    (embed : String → Except JsError V) (documents : List Article)
    (h : ∃ doc ∈ documents, ∃ e, embed doc.article = .error e) :
    ∃ e, createEmbeddings embed documents = .error e ∧
      ∃ doc ∈ documents, embed doc.article = .error e := by
  induction documents with
  | nil => rcases h with ⟨d, hd, _⟩; cases hd
  | cons doc docs ih =>
    cases hembed : embed doc.article with
    | error e =>
      exact ⟨e, by simp [createEmbeddings, hembed], doc, List.mem_cons_self doc docs, hembed⟩
    | ok v =>
      have h' : ∃ d ∈ docs, ∃ e, embed d.article = .error e := by
        rcases h with ⟨d, hd, e, he⟩
        rcases List.mem_cons.mp hd with rfl | hd'
        · rw [hembed] at he; cases he
        · exact ⟨d, hd', e, he⟩
      rcases ih h' with ⟨e, herr, d, hd, he⟩
      exact ⟨e, by simp [createEmbeddings, hembed, herr], d, List.mem_cons_of_mem _ hd, he⟩

/-- C5 witness: with one article whose embedding call rejects, the batch
fails with that error. -/
theorem createEmbeddings_all_or_nothing_witness :
    ∃ e, createEmbeddings (V := Nat)
        (fun s => if s = "bad" then .error (.network "down") else .ok 1)
        [{ title := "t", article := "bad", date := "d", link := "l" }] = .error e ∧
      ∃ doc ∈ [({ title := "t", article := "bad", date := "d", link := "l" } : Article)],
        (fun s => if s = "bad" then (.error (.network "down") : Except JsError Nat) else .ok 1)
          doc.article = .error e :=
  createEmbeddings_all_or_nothing
    (fun s => if s = "bad" then .error (.network "down") else .ok 1)
    [{ title := "t", article := "bad", date := "d", link := "l" }]
    ⟨{ title := "t", article := "bad", date := "d", link := "l" },
      List.mem_cons_self _ _, .network "down", rfl⟩

/-- C8: on a successful batch, `createEmbeddings` preserves article order
and every original field — mapping each output record back to its `Article`
part reproduces the input list exactly, so the output is one-to-one with
the input — and the only addition is the embedding vector returned by the
per-article call on that article body. -/
theorem createEmbeddings_preserves_articles {V : Type}
    (embed : String → Except JsError V) (documents : List Article)
    (out : List (EmbeddedArticle V))
    (h : createEmbeddings embed documents = .ok out) :
    out.map (fun ea => ea.toArticle) = documents ∧
    ∀ ea ∈ out, embed ea.toArticle.article = .ok ea.embedding := by
  induction documents generalizing out with
  | nil =>
    simp only [createEmbeddings, Except.ok.injEq] at h
    subst h
    exact ⟨rfl, by intro ea hea; cases hea⟩
  | cons doc docs ih =>
    cases hembed : embed doc.article with
    | error e => simp [createEmbeddings, hembed] at h
    | ok v =>
      cases hrec : createEmbeddings embed docs with
      | error e => simp [createEmbeddings, hembed, hrec] at h
      | ok rest =>
        simp only [createEmbeddings, hembed, hrec, Except.ok.injEq] at h
        subst h
        obtain ⟨h1, h2⟩ := ih rest hrec
        refine ⟨by simp [h1], ?_⟩
        intro ea hea
        rcases List.mem_cons.mp hea with rfl | hea'
        · simpa using hembed
        · exact h2 ea hea'

/-- C8 witness: a concrete successful batch of two articles, where the
output projects back to the input and carries the computed vectors. -/
theorem createEmbeddings_preserves_articles_witness :
    ([({ toArticle := { title := "t1", article := "aa", date := "d1", link := "l1" }, embedding := 2 } :
        EmbeddedArticle Nat),
      { toArticle := { title := "t2", article := "bbb", date := "d2", link := "l2" }, embedding := 3 }].map
        (fun ea => ea.toArticle)) =
      [{ title := "t1", article := "aa", date := "d1", link := "l1" },
       { title := "t2", article := "bbb", date := "d2", link := "l2" }] ∧
    ∀ ea ∈ [({ toArticle := { title := "t1", article := "aa", date := "d1", link := "l1" }, embedding := 2 } :
        EmbeddedArticle Nat),
      { toArticle := { title := "t2", article := "bbb", date := "d2", link := "l2" }, embedding := 3 }],
      (fun s => (.ok s.length : Except JsError Nat)) ea.toArticle.article = .ok ea.embedding :=
  createEmbeddings_preserves_articles (fun s => .ok s.length)
    [{ title := "t1", article := "aa", date := "d1", link := "l1" },
     { title := "t2", article := "bbb", date := "d2", link := "l2" }] _ rfl

/-- C1 counterexample: in the `src/app.js` variant, when the bulk insert
reports a write failure in-band, `storeEmbeddings` does not fail — the
error is only logged and the call returns normally, so nothing propagates
to the request handler. -/
theorem storeEmbeddings_appjs_swallows_write_failure :
    isThrown (AppJs.storeEmbeddings ([] : List (EmbeddedArticle Nat))
      { data := none, error := some (.supabase "write failed") }) = false := rfl

/-- C1 amended: in the `part_000`/`part_001` variant, a reported write
failure makes `storeEmbeddings` fail with exactly that error, which
propagates to the caller. -/
theorem storeEmbeddings_p001_propagates {V : Type}
    (embeddings : List (EmbeddedArticle V)) (res : InsertResult) (e : JsError)
    (h : res.error = some e) :
    P001.storeEmbeddings embeddings res = .error e := by
  simp [P001.storeEmbeddings, h]

/-- C1 witness: a concrete failed insert propagates its error. -/
theorem storeEmbeddings_p001_propagates_witness :
    P001.storeEmbeddings ([] : List (EmbeddedArticle Nat))
      { data := none, error := some (.supabase "23505") } = .error (.supabase "23505") :=
  storeEmbeddings_p001_propagates [] { data := none, error := some (.supabase "23505") }
    (.supabase "23505") rfl

/-- C2 counterexample: the `src/app.js` responder does not produce the
"no results found" message on an empty result sequence — it emits the bare
header — and on an absent sequence it throws instead of responding. -/
theorem responseText_appjs_no_empty_fallback :
    AppJs.responseText (some []) = .ok "관련 뉴스 링크:\n" ∧
    ("관련 뉴스 링크:\n" : String) ≠ "관련 뉴스를 찾을 수 없습니다." ∧
    isThrown (AppJs.responseText none) = true := by
  exact ⟨rfl, by decide, rfl⟩

/-- C2 amended: in the `part_000`/`part_001` variant the responder agrees
with the spec contract on every input: the fixed "no results found" message
when the result sequence is empty or absent, otherwise the fixed header
followed by one link per line in result order. -/
theorem responseText_p001_matches_responderSpec
    (similarDocuments : Option (List SimilarDocument)) :
    P001.responseText similarDocuments = responderSpec similarDocuments := by
  match similarDocuments with
  | none => rfl
  | some [] => rfl
  | some (d :: ds) => simp [P001.responseText, responderSpec]

/-- C9: a request body without the `userRequest` field makes both variants
of the `/searchNews` handler crash before the try block — the utterance
field access throws, and neither the HTTP 200 envelope nor the handler 500
envelope is produced, whatever the providers would have answered. -/
theorem searchNews_missing_userRequest_crashes {V : Type} (o : Oracles V) :
    (P001.searchNewsHandler o { userRequest := none }).isCrash = true ∧
    (AppJs.searchNewsHandler o { userRequest := none }).isCrash = true ∧
    (∀ status text, P001.searchNewsHandler o { userRequest := none } ≠ .responds status text) ∧
    (∀ status text, AppJs.searchNewsHandler o { userRequest := none } ≠ .responds status text) := by
  refine ⟨rfl, rfl, ?_, ?_⟩ <;> intro status text h <;>
    simp [P001.searchNewsHandler, AppJs.searchNewsHandler] at h

/-- C10: in the `part_000`/`part_001` variant, `extractKeywords` returns
the empty string for every provider outcome: on success the decode step
references the undefined identifier `iconv`, the `ReferenceError` is
thrown inside the try block, and the shared catch handler returns `""`. -/
theorem extractKeywords_p001_always_empty (llm : Except JsError String) :
    P001.extractKeywords llm = "" := by
  cases llm <;> rfl

/-- Collapsing newline runs keeps the head character. -/
theorem collapseNl_cons : ∀ (d : Char) (rest : List Char),
    ∃ t, collapseNl (d :: rest) = d :: t
  | _, [] => ⟨[], rfl⟩
  | d, e :: r => by
    obtain ⟨t, ht⟩ := collapseNl_cons e r
    by_cases h : d = '\n' ∧ e = '\n'
    · have e1 : collapseNl (d :: e :: r) = collapseNl (e :: r) := by
        simp [collapseNl, h]
      exact ⟨t, by rw [e1, ht, h.1, h.2]⟩
    · exact ⟨collapseNl (e :: r), by simp [collapseNl, h]⟩

/-- The newline-collapsing pass of `cleanText` is idempotent on its own:
its output never contains two adjacent newlines. -/
theorem collapseNl_idem : ∀ l : List Char, collapseNl (collapseNl l) = collapseNl l
  | [] => rfl
  | [_] => rfl
  | c :: d :: rest => by
    by_cases h : c = '\n' ∧ d = '\n'
    · have e1 : collapseNl (c :: d :: rest) = collapseNl (d :: rest) := by
        simp [collapseNl, h]
      rw [e1, collapseNl_idem (d :: rest)]
    · have e1 : collapseNl (c :: d :: rest) = c :: collapseNl (d :: rest) := by
        simp [collapseNl, h]
      obtain ⟨t, ht⟩ := collapseNl_cons d rest
      have e2 : collapseNl (c :: d :: t) = c :: collapseNl (d :: t) := by
        simp [collapseNl, h]
      rw [e1, ht, e2, ← ht, collapseNl_idem (d :: rest)]

/-- C4 counterexample: `cleanText` is not idempotent.  On the input
`"<!H<!HS>S>"` the first application removes the inner `<!HS>` marker and
thereby splices together a new `<!HS>`, which only the second application
removes, so applying `cleanText` twice differs from applying it once. -/
theorem cleanText_not_idempotent :
    cleanText (cleanText "<!H<!HS>S>") ≠ cleanText "<!H<!HS>S>" := by decide

/-- C4 amended: `cleanText` is idempotent on every input whose cleaned
form carries no residual highlight marker and no residual h4 block, that
is, whenever one application removes all removable markup (as on all
realistic provider text, including the spec example); the third pass needs
no such hypothesis because collapsing newline runs is unconditionally
idempotent. -/
theorem cleanText_idem_of_no_residual_markers (s : String)
    (h1 : stripMarkers (cleanText s) = cleanText s)
    (h2 : stripH4 (cleanText s) = cleanText s) :
    cleanText (cleanText s) = cleanText s := by
  have h1' : stripMarkersL (cleanTextL s.data) = cleanTextL s.data :=
    congrArg String.data h1
  have h2' : stripH4L (cleanTextL s.data) = cleanTextL s.data :=
    congrArg String.data h2
  refine congrArg String.mk ?_
  show collapseNl (stripH4L (stripMarkersL (cleanTextL s.data))) = cleanTextL s.data
  rw [h1', h2']
  exact collapseNl_idem (stripH4L (stripMarkersL s.data))

/-- C4 witness: on the spec example the cleaned form has no residual
markup, and `cleanText` is idempotent there. -/
theorem cleanText_idem_of_no_residual_markers_witness :
    stripMarkers (cleanText "<!HS>뉴스<!HE>\n\n\n내용") = cleanText "<!HS>뉴스<!HE>\n\n\n내용" ∧
    stripH4 (cleanText "<!HS>뉴스<!HE>\n\n\n내용") = cleanText "<!HS>뉴스<!HE>\n\n\n내용" ∧
    cleanText (cleanText "<!HS>뉴스<!HE>\n\n\n내용") = cleanText "<!HS>뉴스<!HE>\n\n\n내용" :=
  ⟨by decide, by decide,
    cleanText_idem_of_no_residual_markers "<!HS>뉴스<!HE>\n\n\n내용" (by decide) (by decide)⟩

/-! ### Shape of the part_001 `formatKeywords` output (claim C3) -/

/-- A character reported by `head?` is a member. -/
theorem headChar_mem {α : Type} {l : List α} {c : α} (h : l.head? = some c) : c ∈ l := by
  cases l with
  | nil => cases h
  | cons a t =>
    injection h with h
    exact h ▸ List.mem_cons_self a t

/-- A character reported by `getLast?` is a member. -/
theorem lastChar_mem {α : Type} {l : List α} {c : α} (h : l.getLast? = some c) : c ∈ l := by
  have h' : l.reverse.head? = some c := by rw [List.head?_reverse]; exact h
  exact List.mem_reverse.mp (headChar_mem h')

/-- Head of an append with nonempty left part. -/
theorem head?_append_left {α : Type} (xs ys : List α) (h : xs ≠ []) :
    (xs ++ ys).head? = xs.head? := by
  cases xs with
  | nil => exact absurd rfl h
  | cons a t => rfl

/-- Last of an append with nonempty right part. -/
theorem getLast?_append_right {α : Type} (xs ys : List α) (h : ys ≠ []) :
    (xs ++ ys).getLast? = ys.getLast? := by
  calc (xs ++ ys).getLast? = (xs ++ ys).reverse.head? := (List.head?_reverse _).symm
    _ = (ys.reverse ++ xs.reverse).head? := by rw [List.reverse_append]
    _ = ys.reverse.head? := head?_append_left _ _ (by simpa using h)
    _ = ys.getLast? := List.head?_reverse _

/-- The head of a `dropWhile` result does not satisfy the predicate. -/
theorem dropWhile_head?_false {p : Char → Bool} : ∀ {l : List Char} {c : Char},
    (l.dropWhile p).head? = some c → p c = false := by
  intro l
  induction l with
  | nil => intro c h; cases h
  | cons a t ih =>
    intro c h
    by_cases ha : p a = true
    · rw [List.dropWhile_cons, if_pos ha] at h
      exact ih h
    · rw [List.dropWhile_cons, if_neg ha] at h
      injection h with h
      simpa [← h] using ha

/-- Dropping a prefix keeps the last element when something remains. -/
theorem dropWhile_getLast?_of_ne_nil {p : Char → Bool} : ∀ {l : List Char},
    l.dropWhile p ≠ [] → (l.dropWhile p).getLast? = l.getLast? := by
  intro l
  induction l with
  | nil => intro h; exact absurd rfl h
  | cons a t ih =>
    intro h
    by_cases ha : p a = true
    · rw [List.dropWhile_cons, if_pos ha] at h ⊢
      have ht : t ≠ [] := by
        intro he
        rw [he] at h
        exact h rfl
      rw [ih h]
      cases t with
      | nil => exact absurd rfl ht
      | cons b u => rw [List.getLast?_cons_cons]
    · rw [List.dropWhile_cons, if_neg ha]

/-- A list whose head does not satisfy the predicate is untouched by
`dropWhile`. -/
theorem dropWhile_eq_self_of_head {p : Char → Bool} {l : List Char}
    (h : ∀ c, l.head? = some c → p c = false) : l.dropWhile p = l := by
  cases l with
  | nil => rfl
  | cons a t => rw [List.dropWhile_cons, if_neg (by simp [h a rfl])]

/-- Trimming only removes characters. -/
theorem jsTrimL_mem {l : List Char} {x : Char} (h : x ∈ jsTrimL l) : x ∈ l := by
  unfold jsTrimL at h
  have h1 := List.mem_reverse.mp h
  have h2 := (List.dropWhile_sublist jsWs).mem h1
  have h3 := List.mem_reverse.mp h2
  exact (List.dropWhile_sublist jsWs).mem h3

/-- A trimmed list does not start with whitespace. -/
theorem jsTrimL_head (l : List Char) :
    ∀ c, (jsTrimL l).head? = some c → jsWs c = false := by
  intro c h
  unfold jsTrimL at h
  rw [List.head?_reverse] at h
  have hz : ((l.dropWhile jsWs).reverse.dropWhile jsWs) ≠ [] := by
    intro he
    rw [he] at h
    cases h
  rw [dropWhile_getLast?_of_ne_nil hz, List.getLast?_reverse] at h
  exact dropWhile_head?_false h

/-- A trimmed list does not end with whitespace. -/
theorem jsTrimL_getLast (l : List Char) :
    ∀ c, (jsTrimL l).getLast? = some c → jsWs c = false := by
  intro c h
  unfold jsTrimL at h
  rw [List.getLast?_reverse] at h
  exact dropWhile_head?_false h

/-- A list bordered by non-whitespace on both sides is its own trim. -/
theorem jsTrimL_eq_self {l : List Char}
    (h1 : ∀ c, l.head? = some c → jsWs c = false)
    (h2 : ∀ c, l.getLast? = some c → jsWs c = false) : jsTrimL l = l := by
  unfold jsTrimL
  rw [dropWhile_eq_self_of_head h1,
    dropWhile_eq_self_of_head (fun c hc => h2 c (by rwa [List.head?_reverse] at hc))]
  exact List.reverse_reverse l

/-- Unfolding equation of `jsSplitAux` on a cons cell. -/
theorem jsSplitAux_cons (c : Char) (l : List Char) :
    jsSplitAux (c :: l) = splitStep c (jsSplitAux l) := rfl

/-- The flag of one split step depends only on the current character. -/
theorem splitStep_fst (c : Char) (st : Bool × List (List Char)) :
    (splitStep c st).1 = jsWs c := by
  obtain ⟨b, pieces⟩ := st
  by_cases h : jsWs c = true
  · cases b <;> simp [splitStep, h]
  · cases pieces <;> simp [splitStep, h]

/-- The split flag records whether the list begins with whitespace. -/
theorem jsSplitAux_fst (l : List Char) :
    (jsSplitAux l).1 = l.head?.any jsWs := by
  cases l with
  | nil => rfl
  | cons c t => rw [jsSplitAux_cons, splitStep_fst]; rfl

/-- The split always produces at least one piece. -/
theorem jsSplitAux_shape : ∀ l : List Char, ∃ p ps, (jsSplitAux l).2 = p :: ps := by
  intro l
  induction l with
  | nil => exact ⟨[], [], rfl⟩
  | cons c t ih =>
    obtain ⟨p, ps, h⟩ := ih
    rcases hst : jsSplitAux t with ⟨b, pieces⟩
    rw [hst] at h
    simp only at h
    subst h
    rw [jsSplitAux_cons, hst]
    by_cases hc : jsWs c = true
    · cases b
      · exact ⟨[], p :: ps, by simp [splitStep, hc]⟩
      · exact ⟨p, ps, by simp [splitStep, hc]⟩
    · exact ⟨c :: p, ps, by simp [splitStep, hc]⟩

/-- Every character inside a split piece is non-whitespace (whitespace only
separates pieces). -/
theorem jsSplitAux_pieces_wsFree : ∀ l : List Char,
    ∀ p ∈ (jsSplitAux l).2, ∀ x ∈ p, jsWs x = false := by
  intro l
  induction l with
  | nil =>
    intro p hp x hx
    simp only [jsSplitAux, List.foldr, List.mem_singleton] at hp
    subst hp
    cases hx
  | cons c t ih =>
    intro p hp x hx
    rcases hst : jsSplitAux t with ⟨b, pieces⟩
    have ih' : ∀ q ∈ pieces, ∀ y ∈ q, jsWs y = false := by
      intro q hq
      exact ih q (by rw [hst]; exact hq)
    rw [jsSplitAux_cons, hst] at hp
    by_cases hc : jsWs c = true
    · cases b
      · simp only [splitStep, hc, if_true, if_false, Bool.false_eq_true] at hp
        rcases List.mem_cons.mp hp with rfl | hp'
        · cases hx
        · exact ih' p hp' x hx
      · simp only [splitStep, hc, if_true] at hp
        exact ih' p hp x hx
    · rcases pieces with _ | ⟨q, qs⟩
      · simp only [splitStep, hc, if_false, Bool.false_eq_true, List.mem_singleton] at hp
        subst hp
        rcases List.mem_singleton.mp hx with rfl
        simpa using hc
      · simp only [splitStep, hc, if_false, Bool.false_eq_true] at hp
        rcases List.mem_cons.mp hp with rfl | hp'
        · rcases List.mem_cons.mp hx with rfl | hx'
          · simpa using hc
          · exact ih' q (List.mem_cons_self q qs) x hx'
        · exact ih' p (List.mem_cons_of_mem _ hp') x hx

/-- Every character inside a split piece comes from the input list. -/
theorem jsSplitAux_pieces_mem : ∀ l : List Char,
    ∀ p ∈ (jsSplitAux l).2, ∀ x ∈ p, x ∈ l := by
  intro l
  induction l with
  | nil =>
    intro p hp x hx
    simp only [jsSplitAux, List.foldr, List.mem_singleton] at hp
    subst hp
    cases hx
  | cons c t ih =>
    intro p hp x hx
    rcases hst : jsSplitAux t with ⟨b, pieces⟩
    have ih' : ∀ q ∈ pieces, ∀ y ∈ q, y ∈ t := by
      intro q hq
      exact ih q (by rw [hst]; exact hq)
    rw [jsSplitAux_cons, hst] at hp
    by_cases hc : jsWs c = true
    · cases b
      · simp only [splitStep, hc, if_true, if_false, Bool.false_eq_true] at hp
        rcases List.mem_cons.mp hp with rfl | hp'
        · cases hx
        · exact List.mem_cons_of_mem _ (ih' p hp' x hx)
      · simp only [splitStep, hc, if_true] at hp
        exact List.mem_cons_of_mem _ (ih' p hp x hx)
    · rcases pieces with _ | ⟨q, qs⟩
      · simp only [splitStep, hc, if_false, Bool.false_eq_true, List.mem_singleton] at hp
        subst hp
        rcases List.mem_singleton.mp hx with rfl
        exact List.mem_cons_self _ _
      · simp only [splitStep, hc, if_false, Bool.false_eq_true] at hp
        rcases List.mem_cons.mp hp with rfl | hp'
        · rcases List.mem_cons.mp hx with rfl | hx'
          · exact List.mem_cons_self _ _
          · exact List.mem_cons_of_mem _ (ih' q (List.mem_cons_self q qs) x hx')
        · exact List.mem_cons_of_mem _ (ih' p (List.mem_cons_of_mem _ hp') x hx)

/-- Splitting a whitespace-free list yields that list as the only piece. -/
theorem jsSplitAux_wsFree_eq : ∀ l : List Char, (∀ x ∈ l, jsWs x = false) →
    jsSplitAux l = (false, [l]) := by
  intro l
  induction l with
  | nil => intro _; rfl
  | cons c t ih =>
    intro h
    have hc : jsWs c = false := h c (List.mem_cons_self _ _)
    rw [jsSplitAux_cons, ih (fun x hx => h x (List.mem_cons_of_mem _ hx))]
    simp [splitStep, hc]

/-- Prepending a nonempty whitespace-free word extends the first piece of
the split of the remainder. -/
theorem jsSplitAux_append_word : ∀ p : List Char, (∀ x ∈ p, jsWs x = false) → p ≠ [] →
    ∀ (m : List Char) (b : Bool) (hd : List Char) (tl : List (List Char)),
      jsSplitAux m = (b, hd :: tl) →
      jsSplitAux (p ++ m) = (false, (p ++ hd) :: tl) := by
  intro p
  induction p with
  | nil => intro _ hne; exact absurd rfl hne
  | cons c p' ih =>
    intro hws _ m b hd tl hm
    have hc : jsWs c = false := hws c (List.mem_cons_self _ _)
    by_cases hp' : p' = []
    · subst hp'
      rw [List.cons_append, List.nil_append, jsSplitAux_cons, hm]
      simp [splitStep, hc]
    · have h1 := ih (fun x hx => hws x (List.mem_cons_of_mem _ hx)) hp' m b hd tl hm
      rw [List.cons_append, jsSplitAux_cons, h1]
      simp [splitStep, hc]

/-- On a list that does not end in whitespace, every split piece except
possibly the first is nonempty, and the first is empty exactly when the
list is empty or starts with whitespace. -/
theorem jsSplitAux_pieces_ne_nil : ∀ l : List Char,
    (∀ c, l.getLast? = some c → jsWs c = false) →
    ∃ p ps, (jsSplitAux l).2 = p :: ps ∧ (∀ q ∈ ps, q ≠ []) ∧
      (p = [] ↔ (l.head?.any jsWs = true ∨ l = [])) := by
  intro l
  induction l with
  | nil => exact fun _ => ⟨[], [], rfl, by simp, by simp⟩
  | cons c t ih =>
    intro hlast
    cases t with
    | nil =>
      have hc : jsWs c = false := hlast c rfl
      refine ⟨[c], [], ?_, by simp, ?_⟩
      · rw [jsSplitAux_cons]
        simp [jsSplitAux, splitStep, hc]
      · simp [hc]
    | cons a t' =>
      obtain ⟨p, ps, hp, hne, hiff⟩ :=
        ih (fun c' h' => hlast c' (by rw [List.getLast?_cons_cons]; exact h'))
      rcases hst : jsSplitAux (a :: t') with ⟨b, pieces⟩
      rw [hst] at hp
      simp only at hp
      subst hp
      have hb : b = jsWs a := by
        have hf := jsSplitAux_fst (a :: t')
        rw [hst] at hf
        simpa using hf
      subst hb
      by_cases hc : jsWs c = true
      · by_cases ha : jsWs a = true
        · have hp0 : p = [] := hiff.mpr (Or.inl (by simp [ha]))
          refine ⟨p, ps, ?_, hne, ?_⟩
          · rw [jsSplitAux_cons, hst]
            simp [splitStep, hc, ha]
          · simp [hp0, hc]
        · have hpne : p ≠ [] := by
            intro h0
            rcases hiff.mp h0 with hany | habs
            · simp [ha] at hany
            · cases habs
          refine ⟨[], p :: ps, ?_, ?_, ?_⟩
          · rw [jsSplitAux_cons, hst]
            have ha' : jsWs a = false := by simpa using ha
            simp [splitStep, hc, ha']
          · intro q hq
            rcases List.mem_cons.mp hq with rfl | hq'
            · exact hpne
            · exact hne q hq'
          · simp [hc]
      · refine ⟨c :: p, ps, ?_, hne, ?_⟩
        · rw [jsSplitAux_cons, hst]
          simp [splitStep, hc]
        · have hc' : jsWs c = false := by simpa using hc
          simp [hc']

/-- Joining the first two split pieces of a trimmed comma-free list yields
a comma-free, trimmed string of at most two whitespace-separated tokens
that is its own single-space join. -/
theorem take2_shape (d : List Char)
    (hhead : ∀ c, d.head? = some c → jsWs c = false)
    (hlast : ∀ c, d.getLast? = some c → jsWs c = false)
    (hcomma : ∀ x ∈ d, x ≠ ',') :
    ',' ∉ joinSp ((jsSplitWsL d).take 2) ∧
    (tokensL (joinSp ((jsSplitWsL d).take 2))).length ≤ 2 ∧
    jsTrimL (joinSp ((jsSplitWsL d).take 2)) = joinSp ((jsSplitWsL d).take 2) ∧
    joinSp ((jsSplitWsL d).take 2) = joinSp (tokensL (joinSp ((jsSplitWsL d).take 2))) := by
  by_cases hd : d = []
  · subst hd
    exact ⟨by decide, by decide, by decide, by decide⟩
  · obtain ⟨p, ps, hpieces, hne, hiff⟩ := jsSplitAux_pieces_ne_nil d hlast
    have hWsL : jsSplitWsL d = p :: ps := hpieces
    have hpWs : ∀ x ∈ p, jsWs x = false := fun x hx =>
      jsSplitAux_pieces_wsFree d p (by rw [hpieces]; exact List.mem_cons_self _ _) x hx
    have hpMem : ∀ x ∈ p, x ∈ d := fun x hx =>
      jsSplitAux_pieces_mem d p (by rw [hpieces]; exact List.mem_cons_self _ _) x hx
    have hpne : p ≠ [] := by
      intro h0
      rcases hiff.mp h0 with hany | habs
      · cases hdm : d.head? with
        | none => simp [hdm] at hany
        | some c0 =>
          rw [hdm] at hany
          have hws0 := hhead c0 hdm
          simp [hws0] at hany
      · exact hd habs
    rcases ps with _ | ⟨p2, rest⟩
    · have htake : (jsSplitWsL d).take 2 = [p] := by rw [hWsL]; rfl
      have hr : joinSp ((jsSplitWsL d).take 2) = p := by rw [htake]; rfl
      have htok : tokensL p = [p] := by
        rw [tokensL, jsSplitWsL, jsSplitAux_wsFree_eq p hpWs]
        simp [hpne]
      rw [hr]
      refine ⟨?_, ?_, ?_, ?_⟩
      · intro hmem
        exact (hcomma ',' (hpMem ',' hmem)) rfl
      · rw [htok]; simp
      · exact jsTrimL_eq_self (fun c hc => hpWs c (headChar_mem hc))
          (fun c hc => hpWs c (lastChar_mem hc))
      · rw [htok]; rfl
    · have hp2ne : p2 ≠ [] := hne p2 (List.mem_cons_self _ _)
      have hp2Ws : ∀ x ∈ p2, jsWs x = false := fun x hx =>
        jsSplitAux_pieces_wsFree d p2
          (by rw [hpieces]; exact List.mem_cons_of_mem _ (List.mem_cons_self _ _)) x hx
      have hp2Mem : ∀ x ∈ p2, x ∈ d := fun x hx =>
        jsSplitAux_pieces_mem d p2
          (by rw [hpieces]; exact List.mem_cons_of_mem _ (List.mem_cons_self _ _)) x hx
      have htake : (jsSplitWsL d).take 2 = [p, p2] := by rw [hWsL]; rfl
      have hr : joinSp ((jsSplitWsL d).take 2) = p ++ ' ' :: p2 := by rw [htake]; rfl
      have h2 : jsSplitAux p2 = (false, [p2]) := jsSplitAux_wsFree_eq p2 hp2Ws
      have h3 : jsSplitAux (' ' :: p2) = (true, [[], p2]) := by
        rw [jsSplitAux_cons, h2]
        rfl
      have h4 := jsSplitAux_append_word p hpWs hpne (' ' :: p2) true [] [p2] h3
      rw [List.append_nil] at h4
      have htok : tokensL (p ++ ' ' :: p2) = [p, p2] := by
        rw [tokensL, jsSplitWsL, h4]
        simp [hpne, hp2ne]
      rw [hr]
      refine ⟨?_, ?_, ?_, ?_⟩
      · intro hmem
        rcases List.mem_append.mp hmem with hmp | hmc
        · exact (hcomma ',' (hpMem ',' hmp)) rfl
        · rcases List.mem_cons.mp hmc with hsp | hmp2
          · exact absurd hsp (by decide)
          · exact (hcomma ',' (hp2Mem ',' hmp2)) rfl
      · rw [htok]; simp
      · refine jsTrimL_eq_self ?_ ?_
        · intro c hc
          rw [head?_append_left p (' ' :: p2) hpne] at hc
          exact hpWs c (headChar_mem hc)
        · intro c hc
          rw [getLast?_append_right p (' ' :: p2) (by simp)] at hc
          have hcons : (' ' :: p2).getLast? = p2.getLast? := by
            rw [show (' ' :: p2) = [' '] ++ p2 from rfl, getLast?_append_right [' '] p2 hp2ne]
          rw [hcons] at hc
          exact hp2Ws c (lastChar_mem hc)
      · rw [htok]; rfl

/-- C3 counterexample: the `src/app.js` variant of `formatKeywords` does
not remove commas — on the spec example input it returns the two tokens
with the comma still attached. -/
theorem formatKeywords_appjs_keeps_comma :
    AppJs.formatKeywords "삼성, 전자" = "삼성, 전자" ∧
    ',' ∈ (AppJs.formatKeywords "삼성, 전자").data := ⟨by decide, by decide⟩

/-- C3 amended: for the `part_000`/`part_001` variant, `formatKeywords`
returns a comma-free string of at most two whitespace-separated tokens,
with surrounding whitespace trimmed, equal to its own tokens rejoined with
a single space. -/
theorem formatKeywords_p001_wellformed (s : String) :
    ',' ∉ (P001.formatKeywords s).data ∧
    (tokensL (P001.formatKeywords s).data).length ≤ 2 ∧
    jsTrim (P001.formatKeywords s) = P001.formatKeywords s ∧
    (P001.formatKeywords s).data = joinSp (tokensL (P001.formatKeywords s).data) := by
  have hcomma : ∀ x ∈ jsTrimL (s.data.filter (fun c => c ≠ ',')), x ≠ ',' := by
    intro x hx
    have hm := List.mem_filter.mp (jsTrimL_mem hx)
    simpa using hm.2
  obtain ⟨h1, h2, h3, h4⟩ := take2_shape (jsTrimL (s.data.filter (fun c => c ≠ ',')))
    (jsTrimL_head _) (jsTrimL_getLast _) hcomma
  exact ⟨h1, h2, congrArg String.mk h3, h4⟩
